import Mathlib

/-!
A shallow embedding of the CPU/IO scheduling policy in `src/cpp/src/policy.cc`.

The C++ code keeps a global `std::unordered_map<int, TaskState> task_states`
and a decision function
`Action policy(const std::vector<Event>& events, int current_cpu, int current_io)`
that first applies the event batch to the table and then selects a CPU task
and an IO task.  Here the table is made explicit: it is an association list
`List (Int × TaskState)` threaded through `policy`, whose entry order stands
for the (unspecified) iteration order of the hash map.  `std::sort` followed
by taking element 0 is modelled by `selectBest`, a fold that returns an
element no other element strictly precedes under the comparator; for the
strict-weak-order comparators of this program that is exactly the set of
values `std::sort` may put at position 0.
-/

namespace SchedPolicy

/-- `Event::Task::Priority` (two-valued: `kHigh`, `kNormal`). -/
inductive Priority where
  | kHigh : Priority
  | kNormal : Priority
deriving DecidableEq, Repr

/-- `Event::Task`: id, absolute deadline, priority. -/
structure Task where
  taskId : Int
  deadline : Int
  priority : Priority
deriving DecidableEq, Repr

/-- `struct TaskState` of policy.cc. -/
structure TaskState where
  task : Task
  is_io_active : Bool
  remaining_time : Int
  slack_time : Int
  io_remaining : Int
  urgency_level : Int
deriving DecidableEq, Repr

/-- `Event::Type`. -/
inductive EventType where
  | kTaskArrival : EventType
  | kTaskFinish : EventType
  | kIoRequest : EventType
  | kIoEnd : EventType
  | kTimer : EventType
deriving DecidableEq, Repr

/-- `Event`: type tag, timestamp, task snapshot (unused for `kTimer`). -/
structure Event where
  type : EventType
  time : Int
  task : Task
deriving DecidableEq, Repr

/-- The global `task_states` table, as an association list from task id to
state, in hash-map iteration order. -/
abbrev Table := List (Int × TaskState)

/-- Lookup by task id (`task_states.count` / read access). -/
def lookupState (tbl : Table) (id : Int) : Option TaskState :=
  match tbl with
  | [] => none
  | (k, st) :: rest => if k = id then some st else lookupState rest id

/-- `task_states[id] = st`: replace the record in place if the key is
present, otherwise add a new entry (at the end of the iteration order). -/
def insertState (tbl : Table) (id : Int) (st : TaskState) : Table :=
  match tbl with
  | [] => [(id, st)]
  | (k, s) :: rest =>
      if k = id then (id, st) :: rest else (k, s) :: insertState rest id st

/-- `task_states.erase(id)`: drop the entry with key `id` (in the real map
there is at most one; dropping every match coincides on such tables). -/
def eraseState (tbl : Table) (id : Int) : Table :=
  match tbl with
  | [] => []
  | (k, s) :: rest =>
      if k = id then eraseState rest id else (k, s) :: eraseState rest id

/-- Write through `task_states[id]` on the entry whose key is `id`. -/
def modifyState (tbl : Table) (id : Int) (f : TaskState → TaskState) : Table :=
  match tbl with
  | [] => []
  | (k, s) :: rest =>
      if k = id then (k, f s) :: modifyState rest id f
      else (k, s) :: modifyState rest id f

/-- The per-record body of `update_task_states(current_time)`: for a record
not doing IO, recompute `slack_time` and `urgency_level`; IO-active records
are untouched. -/
def timerAdjust (current_time : Int) (st : TaskState) : TaskState :=
  if st.is_io_active then st
  else
    let slack := st.task.deadline - current_time - st.remaining_time
    let base : Int := if slack ≤ 0 then 2 else if slack ≤ 5 then 1 else 0
    let lvl : Int :=
      if st.task.priority = Priority.kHigh then
        if slack ≤ 10 then max base 1 else base
      else base
    { st with slack_time := slack, urgency_level := lvl }

/-- `update_task_states` of policy.cc: the loop over all table entries. -/
def update_task_states (current_time : Int) (tbl : Table) : Table :=
  tbl.map (fun e => (e.1, timerAdjust current_time e.2))

/-- The second loop of the `kTimer` case: decrement `io_remaining` of every
IO-active record while it is positive. -/
def ioTick (st : TaskState) : TaskState :=
  if st.is_io_active ∧ 0 < st.io_remaining then
    { st with io_remaining := st.io_remaining - 1 }
  else st

/-- The whole `kTimer` decrement loop over the table. -/
def ioTickAll (tbl : Table) : Table :=
  tbl.map (fun e => (e.1, ioTick e.2))

/-- One iteration of the event loop of `policy`: the `switch` on
`event.type`. -/
def applyEvent (tbl : Table) (e : Event) : Table :=
  match e.type with
  | EventType.kTaskArrival =>
      insertState tbl e.task.taskId
        { task := e.task
          is_io_active := false
          remaining_time := e.task.deadline - e.time
          slack_time := e.task.deadline - e.time
          io_remaining := 0
          urgency_level := 0 }
  | EventType.kTaskFinish => eraseState tbl e.task.taskId
  | EventType.kIoRequest =>
      if (lookupState tbl e.task.taskId).isSome then
        modifyState tbl e.task.taskId
          (fun st => { st with is_io_active := true, io_remaining := 10 })
      else tbl
  | EventType.kIoEnd =>
      if (lookupState tbl e.task.taskId).isSome then
        modifyState tbl e.task.taskId
          (fun st => { st with is_io_active := false, io_remaining := 0 })
      else tbl
  | EventType.kTimer => ioTickAll (update_task_states e.time tbl)

/-- The event loop of `policy`, over the whole batch in order. -/
def applyEvents (tbl : Table) (events : List Event) : Table :=
  events.foldl applyEvent tbl

/-- A value-initialized `TaskState`, as `task_states[id]` would produce for
an absent key inside the comparators (never reached on the ids `policy`
actually compares). -/
def defaultState : TaskState :=
  { task := { taskId := 0, deadline := 0, priority := Priority.kHigh }
    is_io_active := false
    remaining_time := 0
    slack_time := 0
    io_remaining := 0
    urgency_level := 0 }

/-- `task_states[id]` as the comparators read it. -/
def getState (tbl : Table) (id : Int) : TaskState :=
  (lookupState tbl id).getD defaultState

/-- `compare_urgency` of policy.cc. -/
def compare_urgency (tbl : Table) (a b : Task) : Bool :=
  let ua := (getState tbl a.taskId).urgency_level
  let ub := (getState tbl b.taskId).urgency_level
  if ua ≠ ub then decide (ua > ub)
  else decide ((getState tbl a.taskId).slack_time < (getState tbl b.taskId).slack_time)

/-- `compare_priority_urgency` of policy.cc. -/
def compare_priority_urgency (tbl : Table) (a b : Task) : Bool :=
  if a.priority ≠ b.priority then decide (a.priority = Priority.kHigh)
  else compare_urgency tbl a b

/-- The lambda comparator of the IO-selection branch: priority (high first),
then ascending `io_remaining`. -/
def compareIoShortest (tbl : Table) (a b : Task) : Bool :=
  if a.priority ≠ b.priority then decide (a.priority = Priority.kHigh)
  else decide ((getState tbl a.taskId).io_remaining < (getState tbl b.taskId).io_remaining)

/-- The running minimum under `cmp` ("comes before"), keeping the earlier
element on ties. -/
def pickFirst (cmp : Task → Task → Bool) (t : Task) : List Task → Task
  | [] => t
  | c :: rest => pickFirst cmp (if cmp c t then c else t) rest

/-- `std::sort(v, cmp)` followed by `v[0]` (with `none` for an empty
vector): an element of the list that no element strictly precedes under
`cmp` — exactly the set of values `std::sort` may leave at position 0 when
`cmp` is a strict weak order. -/
def selectBest (cmp : Task → Task → Bool) : List Task → Option Task
  | [] => none
  | t :: rest => some (pickFirst cmp t rest)

/-- The ready list built by `policy`: tasks of all records not doing IO, in
table order. -/
def ready_tasks (tbl : Table) : List Task :=
  (tbl.filter (fun e => !e.2.is_io_active)).map (fun e => e.2.task)

/-- The IO candidate list built by `policy` in the `current_io == 0`
branch: tasks of all IO-active records whose id is not the current CPU
task. -/
def io_candidates (tbl : Table) (currentCpu : Int) : List Task :=
  (tbl.filter (fun e => e.2.is_io_active && e.1 != currentCpu)).map (fun e => e.2.task)

/-- `struct Action`. -/
structure Action where
  cpuTask : Int
  ioTask : Int
deriving DecidableEq, Repr

/-- `policy(events, current_cpu, current_io)`.  Returns the decision and
the updated global table. -/
def policy (events : List Event) (tbl : Table) (currentCpu currentIoId : Int) :
    Action × Table :=
  let tbl' := applyEvents tbl events
  let cpuSel : Int :=
    match selectBest (compare_priority_urgency tbl') (ready_tasks tbl') with
    | none => 0
    | some t => t.taskId
  let ioSel : Int :=
    if currentIoId = 0 then
      match selectBest (compareIoShortest tbl') (io_candidates tbl' currentCpu) with
      | none => 0
      | some t => t.taskId
    else currentIoId
  ({ cpuTask := cpuSel, ioTask := ioSel }, tbl')

/-! ### Claim-side definitions

These restate orders and formulas in the words of the specification, to be
compared with the code-side comparators above. -/

/-- Spec order for CPU dispatch: "high priority before normal; within equal
priority, higher urgency_level; within equal priority and urgency_level,
smaller slack_time". -/
def specCpuBefore (a b : TaskState) : Prop :=
  (a.task.priority = Priority.kHigh ∧ b.task.priority = Priority.kNormal) ∨
  (a.task.priority = b.task.priority ∧ b.urgency_level < a.urgency_level) ∨
  (a.task.priority = b.task.priority ∧ a.urgency_level = b.urgency_level ∧
    a.slack_time < b.slack_time)

/-- Spec order for IO dispatch: "high priority before normal; within equal
priority, smaller io_remaining". -/
def specIoBefore (a b : TaskState) : Prop :=
  (a.task.priority = Priority.kHigh ∧ b.task.priority = Priority.kNormal) ∨
  (a.task.priority = b.task.priority ∧ a.io_remaining < b.io_remaining)

/-- Spec base urgency tier: "slack_time ≤ 0 → tier 2; 0 < slack_time ≤ 5 →
tier 1; slack_time > 5 → tier 0". -/
def specBaseTier (slack : Int) : Int :=
  if slack ≤ 0 then 2 else if slack ≤ 5 then 1 else 0

/-- Spec urgency tier after the high-priority boost: "if the task's priority
is high and slack_time ≤ 10, raise the tier to at least 1 (never lowers a
tier already at 2)". -/
def specTier (prio : Priority) (slack : Int) : Int :=
  if prio = Priority.kHigh ∧ slack ≤ 10 then max (specBaseTier slack) 1
  else specBaseTier slack

/-! ### Well-formedness of the table

`std::unordered_map` guarantees at most one entry per key, and every write
of the program stores a record at key `record.task.taskId`; the association
list inherits both as an invariant. -/

/-- Table invariant carried by the real `unordered_map`: keys are distinct,
and each record is stored at its own task id. -/
abbrev WfTable (tbl : Table) : Prop :=
  (tbl.map Prod.fst).Nodup ∧ ∀ p ∈ tbl, p.2.task.taskId = p.1

/-! ### Lookup lemmas -/

theorem lookupState_eq_none_iff (tbl : Table) (id : Int) :
    lookupState tbl id = none ↔ ∀ p ∈ tbl, p.1 ≠ id := by
  induction tbl with
  | nil => simp [lookupState]
  | cons hd rest ih =>
      obtain ⟨k, s⟩ := hd
      by_cases h : k = id
      · simp [lookupState, h]
      · simp only [lookupState, if_neg h, ih, List.mem_cons]
        constructor
        · rintro hall p (rfl | hp)
          · exact h
          · exact hall p hp
        · intro hall p hp
          exact hall p (Or.inr hp)

theorem lookupState_insert_self (tbl : Table) (id : Int) (st : TaskState) :
    lookupState (insertState tbl id st) id = some st := by
  induction tbl with
  | nil => simp [insertState, lookupState]
  | cons hd rest ih =>
      obtain ⟨k, s⟩ := hd
      by_cases h : k = id
      · simp [insertState, h, lookupState]
      · simp [insertState, h, lookupState, ih]

theorem lookupState_insert_ne (tbl : Table) (id j : Int) (st : TaskState)
    (h : j ≠ id) : lookupState (insertState tbl id st) j = lookupState tbl j := by
  have h' : ¬ id = j := fun hh => h hh.symm
  induction tbl with
  | nil => simp [insertState, lookupState, h']
  | cons hd rest ih =>
      obtain ⟨k, s⟩ := hd
      by_cases hk : k = id
      · subst hk
        simp [insertState, lookupState, h']
      · simp only [insertState, if_neg hk, lookupState, ih]

theorem lookupState_erase_self (tbl : Table) (id : Int) :
    lookupState (eraseState tbl id) id = none := by
  induction tbl with
  | nil => simp [eraseState, lookupState]
  | cons hd rest ih =>
      obtain ⟨k, s⟩ := hd
      by_cases h : k = id
      · simpa [eraseState, h] using ih
      · simp [eraseState, h, lookupState, ih]

theorem lookupState_erase_ne (tbl : Table) (id j : Int) (h : id ≠ j) :
    lookupState (eraseState tbl j) id = lookupState tbl id := by
  induction tbl with
  | nil => simp [eraseState]
  | cons hd rest ih =>
      obtain ⟨k, s⟩ := hd
      by_cases hk : k = j
      · have hne : ¬ k = id := by rw [hk]; exact fun hh => h hh.symm
        simp [eraseState, hk, lookupState, hne, ih, Ne.symm h]
      · by_cases hj : k = id
        · simp [eraseState, hk, lookupState, hj, h]
        · simp [eraseState, hk, lookupState, hj, ih]

/-- Lookup through an entry-wise update of the states. -/
theorem lookupState_map_snd (tbl : Table) (g : TaskState → TaskState) (id : Int) :
    lookupState (tbl.map (fun e => (e.1, g e.2))) id =
      (lookupState tbl id).map g := by
  induction tbl with
  | nil => simp [lookupState]
  | cons hd rest ih =>
      obtain ⟨k, s⟩ := hd
      by_cases h : k = id
      · simp [lookupState, h]
      · simp [lookupState, h, ih]

theorem lookupState_modify_self (tbl : Table) (id : Int) (f : TaskState → TaskState) :
    lookupState (modifyState tbl id f) id = (lookupState tbl id).map f := by
  induction tbl with
  | nil => simp [modifyState, lookupState]
  | cons hd rest ih =>
      obtain ⟨k, s⟩ := hd
      by_cases h : k = id
      · simp [modifyState, lookupState, h]
      · simp [modifyState, lookupState, h, ih]

theorem lookupState_modify_ne (tbl : Table) (id j : Int) (f : TaskState → TaskState)
    (h : j ≠ id) : lookupState (modifyState tbl id f) j = lookupState tbl j := by
  induction tbl with
  | nil => simp [modifyState, lookupState]
  | cons hd rest ih =>
      obtain ⟨k, s⟩ := hd
      by_cases hk : k = id
      · have hne : ¬ k = j := by rw [hk]; exact fun hh => h hh.symm
        simp [modifyState, lookupState, hk, hne, ih, Ne.symm h]
      · by_cases hj : k = j
        · simp [modifyState, lookupState, hk, hj, h]
        · simp [modifyState, lookupState, hk, hj, ih]

/-- With distinct keys, membership determines the lookup. -/
theorem lookupState_of_mem (tbl : Table) (p : Int × TaskState)
    (hnd : (tbl.map Prod.fst).Nodup) (hp : p ∈ tbl) :
    lookupState tbl p.1 = some p.2 := by
  induction tbl with
  | nil => simp at hp
  | cons hd rest ih =>
      simp only [List.map_cons, List.nodup_cons] at hnd
      rcases List.mem_cons.mp hp with rfl | hmem
      · simp [lookupState]
      · have hne : ¬ hd.1 = p.1 := by
          intro hh
          exact hnd.1 (hh ▸ List.mem_map_of_mem Prod.fst hmem)
        simp only [lookupState, if_neg hne]
        exact ih hnd.2 hmem

/-! ### Membership and key lemmas for the table operations -/

theorem mem_insertState (tbl : Table) (id : Int) (st : TaskState)
    (p : Int × TaskState) (hp : p ∈ insertState tbl id st) :
    p = (id, st) ∨ p ∈ tbl := by
  induction tbl with
  | nil => simpa [insertState] using hp
  | cons hd rest ih =>
      obtain ⟨k, s⟩ := hd
      by_cases h : k = id
      · simp only [insertState, if_pos h, List.mem_cons] at hp
        rcases hp with rfl | hp
        · exact Or.inl rfl
        · exact Or.inr (List.mem_cons_of_mem _ hp)
      · simp only [insertState, if_neg h, List.mem_cons] at hp
        rcases hp with rfl | hp
        · exact Or.inr (List.mem_cons_self _ _)
        · rcases ih hp with h1 | h1
          · exact Or.inl h1
          · exact Or.inr (List.mem_cons_of_mem _ h1)

theorem mem_keys_insertState (tbl : Table) (id j : Int) (st : TaskState)
    (hj : j ∈ (insertState tbl id st).map Prod.fst) :
    j = id ∨ j ∈ tbl.map Prod.fst := by
  simp only [List.mem_map] at hj
  obtain ⟨p, hp, rfl⟩ := hj
  rcases mem_insertState tbl id st p hp with rfl | hmem
  · exact Or.inl rfl
  · exact Or.inr (List.mem_map_of_mem Prod.fst hmem)

theorem nodup_keys_insertState (tbl : Table) (id : Int) (st : TaskState)
    (hnd : (tbl.map Prod.fst).Nodup) :
    ((insertState tbl id st).map Prod.fst).Nodup := by
  induction tbl with
  | nil => simp [insertState]
  | cons hd rest ih =>
      obtain ⟨k, s⟩ := hd
      simp only [List.map_cons, List.nodup_cons] at hnd
      by_cases h : k = id
      · subst h
        simpa [insertState, List.nodup_cons] using hnd
      · simp only [insertState, if_neg h, List.map_cons, List.nodup_cons]
        refine ⟨fun hk => ?_, ih hnd.2⟩
        rcases mem_keys_insertState rest id k st hk with rfl | hmem
        · exact h rfl
        · exact hnd.1 hmem

theorem eraseState_sublist (tbl : Table) (id : Int) :
    List.Sublist (eraseState tbl id) tbl := by
  induction tbl with
  | nil => simp [eraseState]
  | cons hd rest ih =>
      obtain ⟨k, s⟩ := hd
      by_cases h : k = id
      · simpa [eraseState, h] using ih.cons (k, s)
      · simpa [eraseState, h] using ih.cons₂ (k, s)

theorem mem_modifyState (tbl : Table) (id : Int) (f : TaskState → TaskState)
    (p : Int × TaskState) (hp : p ∈ modifyState tbl id f) :
    ∃ q ∈ tbl, p.1 = q.1 ∧ (p.2 = q.2 ∨ p.2 = f q.2) := by
  induction tbl with
  | nil => simp [modifyState] at hp
  | cons hd rest ih =>
      obtain ⟨k, s⟩ := hd
      by_cases h : k = id
      · simp only [modifyState, if_pos h, List.mem_cons] at hp
        rcases hp with rfl | hp
        · exact ⟨(k, s), List.mem_cons_self _ _, rfl, Or.inr rfl⟩
        · obtain ⟨q, hq, h1, h2⟩ := ih hp
          exact ⟨q, List.mem_cons_of_mem _ hq, h1, h2⟩
      · simp only [modifyState, if_neg h, List.mem_cons] at hp
        rcases hp with rfl | hp
        · exact ⟨(k, s), List.mem_cons_self _ _, rfl, Or.inl rfl⟩
        · obtain ⟨q, hq, h1, h2⟩ := ih hp
          exact ⟨q, List.mem_cons_of_mem _ hq, h1, h2⟩

theorem keys_modifyState (tbl : Table) (id : Int) (f : TaskState → TaskState) :
    (modifyState tbl id f).map Prod.fst = tbl.map Prod.fst := by
  induction tbl with
  | nil => simp [modifyState]
  | cons hd rest ih =>
      obtain ⟨k, s⟩ := hd
      by_cases h : k = id
      · simp [modifyState, h, ih]
      · simp [modifyState, h, ih]

theorem keys_map_snd (tbl : Table) (g : TaskState → TaskState) :
    ((tbl.map (fun e => (e.1, g e.2))).map Prod.fst) = tbl.map Prod.fst := by
  induction tbl with
  | nil => simp
  | cons hd rest ih => simp [ih]

/-! ### The state-updating maps do not touch the `task` field -/

theorem timerAdjust_task (t : Int) (st : TaskState) :
    (timerAdjust t st).task = st.task := by
  unfold timerAdjust
  split <;> rfl

theorem timerAdjust_remaining (t : Int) (st : TaskState) :
    (timerAdjust t st).remaining_time = st.remaining_time := by
  unfold timerAdjust
  split <;> rfl

theorem timerAdjust_io_fields (t : Int) (st : TaskState) :
    (timerAdjust t st).is_io_active = st.is_io_active ∧
      (timerAdjust t st).io_remaining = st.io_remaining := by
  unfold timerAdjust
  split <;> exact ⟨rfl, rfl⟩

theorem ioTick_task (st : TaskState) : (ioTick st).task = st.task := by
  unfold ioTick
  split <;> rfl

theorem ioTick_remaining (st : TaskState) :
    (ioTick st).remaining_time = st.remaining_time := by
  unfold ioTick
  split <;> rfl

theorem ioTick_keeps_urgency (st : TaskState) :
    (ioTick st).slack_time = st.slack_time ∧
      (ioTick st).urgency_level = st.urgency_level ∧
      (ioTick st).is_io_active = st.is_io_active := by
  unfold ioTick
  split <;> exact ⟨rfl, rfl, rfl⟩

/-! ### Preservation of well-formedness -/

theorem wf_applyEvent (tbl : Table) (e : Event) (h : WfTable tbl) :
    WfTable (applyEvent tbl e) := by
  obtain ⟨hnd, hid⟩ := h
  cases he : e.type with
  | kTaskArrival =>
      simp only [applyEvent, he]
      refine ⟨nodup_keys_insertState _ _ _ hnd, ?_⟩
      intro p hp
      rcases mem_insertState _ _ _ p hp with rfl | hmem
      · rfl
      · exact hid p hmem
  | kTaskFinish =>
      simp only [applyEvent, he]
      refine ⟨List.Nodup.sublist ((eraseState_sublist tbl _).map Prod.fst) hnd, ?_⟩
      intro p hp
      exact hid p ((eraseState_sublist tbl _).subset hp)
  | kIoRequest =>
      simp only [applyEvent, he]
      split
      · refine ⟨by rw [keys_modifyState]; exact hnd, ?_⟩
        intro p hp
        obtain ⟨q, hq, h1, h2⟩ := mem_modifyState _ _ _ p hp
        have := hid q hq
        rcases h2 with h2 | h2 <;> rw [h1, h2] <;> simpa using this
      · exact ⟨hnd, hid⟩
  | kIoEnd =>
      simp only [applyEvent, he]
      split
      · refine ⟨by rw [keys_modifyState]; exact hnd, ?_⟩
        intro p hp
        obtain ⟨q, hq, h1, h2⟩ := mem_modifyState _ _ _ p hp
        have := hid q hq
        rcases h2 with h2 | h2 <;> rw [h1, h2] <;> simpa using this
      · exact ⟨hnd, hid⟩
  | kTimer =>
      simp only [applyEvent, he, ioTickAll, update_task_states]
      constructor
      · rw [keys_map_snd, keys_map_snd]
        exact hnd
      · intro p hp
        simp only [List.mem_map] at hp
        obtain ⟨q, ⟨r, hr, rfl⟩, rfl⟩ := hp
        simpa [ioTick_task, timerAdjust_task] using hid r hr

theorem wf_applyEvents (tbl : Table) (events : List Event) (h : WfTable tbl) :
    WfTable (applyEvents tbl events) := by
  induction events generalizing tbl with
  | nil => simpa [applyEvents] using h
  | cons e rest ih =>
      have : applyEvents tbl (e :: rest) = applyEvents (applyEvent tbl e) rest := rfl
      rw [this]
      exact ih _ (wf_applyEvent tbl e h)

/-! ### Selection lemmas: the chosen element belongs to the list and no
element strictly precedes it -/

theorem pickFirst_mem (cmp : Task → Task → Bool) (l : List Task) :
    ∀ t, pickFirst cmp t l ∈ t :: l := by
  induction l with
  | nil => intro t; simp [pickFirst]
  | cons c rest ih =>
      intro t
      by_cases h : cmp c t
      · simp only [pickFirst, if_pos h]
        exact List.mem_cons_of_mem t (ih c)
      · simp only [pickFirst, if_neg h]
        rcases List.mem_cons.mp (ih t) with h1 | h1
        · rw [h1]; exact List.mem_cons_self _ _
        · exact List.mem_cons_of_mem t (List.mem_cons_of_mem c h1)

theorem pickFirst_not_beaten (cmp : Task → Task → Bool)
    (hirr : ∀ x, cmp x x = false)
    (htr : ∀ x y z, cmp x y = true → cmp y z = true → cmp x z = true)
    (hneg : ∀ x y z, cmp x y = false → cmp y z = false → cmp x z = false)
    (l : List Task) :
    ∀ t, ∀ x ∈ t :: l, cmp x (pickFirst cmp t l) = false := by
  induction l with
  | nil =>
      intro t x hx
      simp only [List.mem_cons, List.not_mem_nil, or_false] at hx
      subst hx
      simpa [pickFirst] using hirr x
  | cons c rest ih =>
      intro t x hx
      by_cases h : cmp c t
      · simp only [pickFirst, if_pos h]
        rcases List.mem_cons.mp hx with rfl | hx'
        · cases hb : cmp x (pickFirst cmp c rest) with
          | false => rfl
          | true =>
              have hcm : cmp c (pickFirst cmp c rest) = false :=
                ih c c (List.mem_cons_self c rest)
              have habs : cmp c (pickFirst cmp c rest) = true :=
                htr c x (pickFirst cmp c rest) h hb
              rw [habs] at hcm
              exact absurd hcm (by simp)
        · exact ih c x hx'
      · have hf : cmp c t = false := by simpa using h
        simp only [pickFirst, if_neg h]
        rcases List.mem_cons.mp hx with rfl | hx'
        · exact ih x x (List.mem_cons_self x rest)
        · rcases List.mem_cons.mp hx' with rfl | hx''
          · have htm : cmp t (pickFirst cmp t rest) = false :=
              ih t t (List.mem_cons_self t rest)
            exact hneg x t (pickFirst cmp t rest) hf htm
          · exact ih t x (List.mem_cons_of_mem t hx'')

theorem selectBest_eq_none (cmp : Task → Task → Bool) (l : List Task) :
    selectBest cmp l = none ↔ l = [] := by
  cases l <;> simp [selectBest]

theorem selectBest_mem (cmp : Task → Task → Bool) (l : List Task) (t : Task)
    (h : selectBest cmp l = some t) : t ∈ l := by
  cases l with
  | nil => simp [selectBest] at h
  | cons hd rest =>
      simp only [selectBest, Option.some.injEq] at h
      rw [← h]
      exact pickFirst_mem cmp rest hd

theorem selectBest_not_beaten (cmp : Task → Task → Bool)
    (hirr : ∀ x, cmp x x = false)
    (htr : ∀ x y z, cmp x y = true → cmp y z = true → cmp x z = true)
    (hneg : ∀ x y z, cmp x y = false → cmp y z = false → cmp x z = false)
    (l : List Task) (t : Task) (h : selectBest cmp l = some t) :
    ∀ x ∈ l, cmp x t = false := by
  cases l with
  | nil => simp [selectBest] at h
  | cons hd rest =>
      simp only [selectBest, Option.some.injEq] at h
      intro x hx
      rw [← h]
      exact pickFirst_not_beaten cmp hirr htr hneg rest hd x hx

/-! ### The comparators are strict weak orders -/

theorem cpu_cmp_irrefl (tbl : Table) (a : Task) :
    compare_priority_urgency tbl a a = false := by
  simp [compare_priority_urgency, compare_urgency]

theorem cpu_cmp_trans (tbl : Table) (a b c : Task) :
    compare_priority_urgency tbl a b = true →
    compare_priority_urgency tbl b c = true →
    compare_priority_urgency tbl a c = true := by
  unfold compare_priority_urgency compare_urgency
  cases ha : a.priority <;> cases hb : b.priority <;> cases hc : c.priority <;>
    simp only [ha, hb, hc, ne_eq, not_true_eq_false, not_false_eq_true,
      if_true, if_false, reduceCtorEq, ite_true, ite_false, decide_eq_true_eq] <;>
    split_ifs <;> simp_all <;> omega

theorem cpu_cmp_negtrans (tbl : Table) (a b c : Task) :
    compare_priority_urgency tbl a b = false →
    compare_priority_urgency tbl b c = false →
    compare_priority_urgency tbl a c = false := by
  unfold compare_priority_urgency compare_urgency
  cases ha : a.priority <;> cases hb : b.priority <;> cases hc : c.priority <;>
    simp only [ha, hb, hc, ne_eq, not_true_eq_false, not_false_eq_true,
      if_true, if_false, reduceCtorEq, ite_true, ite_false, decide_eq_true_eq] <;>
    split_ifs <;> simp_all <;> omega

theorem io_cmp_irrefl (tbl : Table) (a : Task) :
    compareIoShortest tbl a a = false := by
  simp [compareIoShortest]

theorem io_cmp_trans (tbl : Table) (a b c : Task) :
    compareIoShortest tbl a b = true →
    compareIoShortest tbl b c = true →
    compareIoShortest tbl a c = true := by
  unfold compareIoShortest
  cases ha : a.priority <;> cases hb : b.priority <;> cases hc : c.priority <;>
    simp [ha, hb, hc, decide_eq_true_eq, decide_eq_false_iff_not] <;> omega

theorem io_cmp_negtrans (tbl : Table) (a b c : Task) :
    compareIoShortest tbl a b = false →
    compareIoShortest tbl b c = false →
    compareIoShortest tbl a c = false := by
  unfold compareIoShortest
  cases ha : a.priority <;> cases hb : b.priority <;> cases hc : c.priority <;>
    simp [ha, hb, hc, decide_eq_true_eq, decide_eq_false_iff_not] <;> omega

/-! ### Bridging the code comparators with the spec orders -/

theorem getState_of_mem (tbl : Table) (p : Int × TaskState) (hwf : WfTable tbl)
    (hp : p ∈ tbl) : getState tbl p.2.task.taskId = p.2 := by
  rw [hwf.2 p hp]
  unfold getState
  rw [lookupState_of_mem tbl p hwf.1 hp]
  rfl

theorem cpu_cmp_iff_spec (tbl : Table) (hwf : WfTable tbl)
    (p q : Int × TaskState) (hp : p ∈ tbl) (hq : q ∈ tbl) :
    (compare_priority_urgency tbl p.2.task q.2.task = true ↔ specCpuBefore p.2 q.2) := by
  unfold compare_priority_urgency compare_urgency specCpuBefore
  rw [getState_of_mem tbl p hwf hp, getState_of_mem tbl q hwf hq]
  cases hpp : p.2.task.priority <;> cases hqq : q.2.task.priority <;>
    simp [hpp, hqq, decide_eq_true_eq] <;>
    split_ifs <;> (try simp [decide_eq_true_eq]) <;> omega

theorem io_cmp_iff_spec (tbl : Table) (hwf : WfTable tbl)
    (p q : Int × TaskState) (hp : p ∈ tbl) (hq : q ∈ tbl) :
    (compareIoShortest tbl p.2.task q.2.task = true ↔ specIoBefore p.2 q.2) := by
  unfold compareIoShortest specIoBefore
  rw [getState_of_mem tbl p hwf hp, getState_of_mem tbl q hwf hq]
  cases hpp : p.2.task.priority <;> cases hqq : q.2.task.priority <;>
    simp [hpp, hqq, decide_eq_true_eq]

/-! ### Membership in the candidate lists -/

theorem mem_ready_tasks (tbl : Table) (t : Task) :
    t ∈ ready_tasks tbl ↔ ∃ p ∈ tbl, p.2.is_io_active = false ∧ t = p.2.task := by
  unfold ready_tasks
  simp only [List.mem_map, List.mem_filter, Bool.not_eq_true']
  constructor
  · rintro ⟨p, ⟨hp, hio⟩, rfl⟩
    exact ⟨p, hp, hio, rfl⟩
  · rintro ⟨p, hp, hio, rfl⟩
    exact ⟨p, ⟨hp, hio⟩, rfl⟩

theorem mem_io_candidates (tbl : Table) (currentCpu : Int) (t : Task) :
    t ∈ io_candidates tbl currentCpu ↔
      ∃ p ∈ tbl, p.2.is_io_active = true ∧ p.1 ≠ currentCpu ∧ t = p.2.task := by
  unfold io_candidates
  simp only [List.mem_map, List.mem_filter, Bool.and_eq_true, bne_iff_ne, ne_eq]
  constructor
  · rintro ⟨p, ⟨hp, hio, hcc⟩, rfl⟩
    exact ⟨p, hp, hio, hcc, rfl⟩
  · rintro ⟨p, hp, hio, hcc, rfl⟩
    exact ⟨p, ⟨hp, hio, hcc⟩, rfl⟩

/-! ### Unfolding the decision function -/

theorem policy_table (events : List Event) (tbl : Table) (currentCpu currentIoId : Int) :
    (policy events tbl currentCpu currentIoId).2 = applyEvents tbl events := rfl

theorem policy_cpuTask (events : List Event) (tbl : Table) (currentCpu currentIoId : Int) :
    (policy events tbl currentCpu currentIoId).1.cpuTask =
      match selectBest (compare_priority_urgency (applyEvents tbl events))
          (ready_tasks (applyEvents tbl events)) with
      | none => 0
      | some t => t.taskId := rfl

theorem policy_ioTask (events : List Event) (tbl : Table) (currentCpu currentIoId : Int) :
    (policy events tbl currentCpu currentIoId).1.ioTask =
      if currentIoId = 0 then
        match selectBest (compareIoShortest (applyEvents tbl events))
            (io_candidates (applyEvents tbl events) currentCpu) with
        | none => 0
        | some t => t.taskId
      else currentIoId := rfl

/-! ### Small no-op lemmas for unknown ids -/

theorem eraseState_of_absent (tbl : Table) (id : Int)
    (h : ∀ p ∈ tbl, p.1 ≠ id) : eraseState tbl id = tbl := by
  induction tbl with
  | nil => rfl
  | cons hd rest ih =>
      obtain ⟨k, s⟩ := hd
      have hk : k ≠ id := h (k, s) (List.mem_cons_self _ _)
      rw [eraseState, if_neg hk, ih (fun p hp => h p (List.mem_cons_of_mem _ hp))]

/-! ### Concrete tasks, records and tables used by witnesses and
counterexamples -/

def exTask1 : Task := { taskId := 1, deadline := 20, priority := Priority.kNormal }

def exArrival1 : Event := { type := EventType.kTaskArrival, time := 0, task := exTask1 }

def exState1 : TaskState :=
  { task := exTask1, is_io_active := false, remaining_time := 20, slack_time := 20,
    io_remaining := 0, urgency_level := 0 }

def exTask2 : Task := { taskId := 2, deadline := 25, priority := Priority.kHigh }

def exState2io : TaskState :=
  { task := exTask2, is_io_active := true, remaining_time := 25, slack_time := 25,
    io_remaining := 10, urgency_level := 0 }

def exTbl2 : Table := [(1, exState1), (2, exState2io)]

def exTask5 : Task := { taskId := 5, deadline := 30, priority := Priority.kNormal }

def exState5 : TaskState :=
  { task := exTask5, is_io_active := false, remaining_time := 30, slack_time := 30,
    io_remaining := 0, urgency_level := 0 }

def exTask7 : Task := { taskId := 7, deadline := 9, priority := Priority.kHigh }

def exState7 : TaskState :=
  { task := exTask7, is_io_active := false, remaining_time := 9, slack_time := 9,
    io_remaining := 0, urgency_level := 0 }

def exFinish7 : Event := { type := EventType.kTaskFinish, time := 1, task := exTask7 }

/-! ### The claims -/

/-- C3: IO non-preemption — whenever the caller passes a non-zero current
IO task id, `policy` returns exactly that id as `ioTask`, for every event
batch, table state, and current CPU id. -/
theorem io_non_preemption (events : List Event) (tbl : Table)
    (currentCpu currentIoId : Int) (h : currentIoId ≠ 0) :
    (policy events tbl currentCpu currentIoId).1.ioTask = currentIoId := by
  rw [policy_ioTask, if_neg h]

/-- C3 witness: `policy` echoes the concrete IO id 7. -/
theorem io_non_preemption_witness :
    (policy [exArrival1] [] 0 7).1.ioTask = 7 :=
  io_non_preemption [exArrival1] [] 0 7 (by decide)

/-- C6 counterexample: with an empty table after the batch but a non-zero
caller-supplied IO id, `policy` returns that id as `ioTask`, not 0, so the
claim fails as stated. -/
theorem idle_on_empty_cex :
    applyEvents ([] : Table) [] = [] ∧ (policy [] [] 0 7).1.ioTask = 7 :=
  ⟨rfl, rfl⟩

/-- C6 amended: if the event batch leaves the state table empty and the
caller-supplied current IO id is 0, the decision is cpuTask = 0 and
ioTask = 0. -/
theorem idle_on_empty (events : List Event) (tbl : Table) (currentCpu : Int)
    (h : applyEvents tbl events = []) :
    (policy events tbl currentCpu 0).1 = { cpuTask := 0, ioTask := 0 } := by
  have h1 : (policy events tbl currentCpu 0).1.cpuTask = 0 := by
    rw [policy_cpuTask]
    have hr : ready_tasks (applyEvents tbl events) = [] := by rw [h]; rfl
    rw [hr]
    rfl
  have h2 : (policy events tbl currentCpu 0).1.ioTask = 0 := by
    rw [policy_ioTask, if_pos rfl]
    have hc : io_candidates (applyEvents tbl events) currentCpu = [] := by rw [h]; rfl
    rw [hc]
    rfl
  cases hA : (policy events tbl currentCpu 0).1 with
  | mk cT iT =>
      rw [hA] at h1 h2
      simp only at h1 h2
      rw [h1, h2]

/-- C6 witness: the empty batch on the empty table yields the idle
decision. -/
theorem idle_on_empty_witness :
    (policy [] [] 0 0).1 = { cpuTask := 0, ioTask := 0 } :=
  idle_on_empty [] [] 0 rfl

/-- C7 counterexample: a record that is not IO-active wins the CPU while
the caller-supplied current IO id names the same task; `policy` assigns the
same non-zero id 5 to both resources, so the claim fails as stated. -/
theorem both_resources_cex :
    (policy [] [(5, exState5)] 0 5).1.cpuTask = 5 ∧
      (policy [] [(5, exState5)] 0 5).1.ioTask = 5 := by
  constructor <;> rfl

/-- C7 amended: when the caller-supplied current IO id is 0 (the branch the
spec's guard describes) and the table is well formed, `policy` never
assigns the same non-zero task id to both cpuTask and ioTask. -/
theorem both_resources_guard (events : List Event) (tbl : Table) (currentCpu : Int)
    (hwf : WfTable tbl)
    (hcpu : (policy events tbl currentCpu 0).1.cpuTask ≠ 0)
    (hio : (policy events tbl currentCpu 0).1.ioTask ≠ 0) :
    (policy events tbl currentCpu 0).1.cpuTask ≠ (policy events tbl currentCpu 0).1.ioTask := by
  have hwf' := wf_applyEvents tbl events hwf
  rw [policy_cpuTask] at hcpu ⊢
  rw [policy_ioTask, if_pos rfl] at hio ⊢
  cases hsel : selectBest (compare_priority_urgency (applyEvents tbl events))
      (ready_tasks (applyEvents tbl events)) with
  | none => rw [hsel] at hcpu; exact absurd rfl hcpu
  | some m =>
      cases hsel2 : selectBest (compareIoShortest (applyEvents tbl events))
          (io_candidates (applyEvents tbl events) currentCpu) with
      | none => rw [hsel2] at hio; exact absurd rfl hio
      | some m2 =>
          obtain ⟨p, hp, hpio, rfl⟩ :=
            (mem_ready_tasks _ m).mp (selectBest_mem _ _ m hsel)
          obtain ⟨q, hq, hqio, hqcc, rfl⟩ :=
            (mem_io_candidates _ currentCpu m2).mp (selectBest_mem _ _ m2 hsel2)
          show p.2.task.taskId ≠ q.2.task.taskId
          intro heq
          have hp1 : p.2.task.taskId = p.1 := hwf'.2 p hp
          have hq1 : q.2.task.taskId = q.1 := hwf'.2 q hq
          have hkey : p.1 = q.1 := by rw [← hp1, ← hq1, heq]
          have hlp := lookupState_of_mem _ p hwf'.1 hp
          have hlq := lookupState_of_mem _ q hwf'.1 hq
          rw [hkey] at hlp
          rw [hlp] at hlq
          have hpq : p.2 = q.2 := by injection hlq
          rw [hpq, hqio] at hpio
          exact absurd hpio (by simp)

/-- C7 witness: on a well-formed two-record table one task takes the CPU
and a different one takes the IO device. -/
theorem both_resources_guard_witness :
    (policy [] exTbl2 0 0).1.cpuTask ≠ (policy [] exTbl2 0 0).1.ioTask :=
  both_resources_guard [] exTbl2 0 (by decide) (by decide) (by decide)

/-- C8: unknown-id tolerance — an IoRequest, IoEnd or Finish event whose
task id has no record leaves the table completely unchanged (and the
decision function, a total function here, still returns a decision). -/
theorem unknown_id_tolerance (tbl : Table) (t : Int) (tk : Task)
    (h : lookupState tbl tk.taskId = none) :
    applyEvent tbl { type := EventType.kIoRequest, time := t, task := tk } = tbl ∧
    applyEvent tbl { type := EventType.kIoEnd, time := t, task := tk } = tbl ∧
    applyEvent tbl { type := EventType.kTaskFinish, time := t, task := tk } = tbl := by
  refine ⟨?_, ?_, ?_⟩
  · simp [applyEvent, h]
  · simp [applyEvent, h]
  · simp only [applyEvent]
    exact eraseState_of_absent tbl tk.taskId ((lookupState_eq_none_iff tbl tk.taskId).mp h)

/-- C8 witness: IO and Finish events for the unknown id 7 leave the
one-record table untouched. -/
theorem unknown_id_tolerance_witness :
    applyEvent [(1, exState1)] { type := EventType.kIoRequest, time := 3, task := exTask7 } = [(1, exState1)] ∧
    applyEvent [(1, exState1)] { type := EventType.kIoEnd, time := 3, task := exTask7 } = [(1, exState1)] ∧
    applyEvent [(1, exState1)] { type := EventType.kTaskFinish, time := 3, task := exTask7 } = [(1, exState1)] :=
  unknown_id_tolerance [(1, exState1)] 3 exTask7 (by decide)

/-- C10: stale IO echo — a concrete call in which the batch finishes task 7
(so its record is gone from the table) while the caller still reports 7 as
the current IO task: `policy` echoes ioTask = 7 without validating it. -/
theorem stale_io_echo :
    lookupState (policy [exFinish7] [(7, exState7)] 0 7).2 7 = none ∧
      (policy [exFinish7] [(7, exState7)] 0 7).1.ioTask = 7 := by
  constructor <;> rfl

/-! ### Timer-step field lemmas -/

theorem timerAdjust_spec (t : Int) (st : TaskState) (hio : st.is_io_active = false) :
    (timerAdjust t st).slack_time = st.task.deadline - t - st.remaining_time ∧
      (timerAdjust t st).urgency_level =
        specTier st.task.priority (st.task.deadline - t - st.remaining_time) := by
  unfold timerAdjust specTier specBaseTier
  rw [hio]
  constructor
  · simp
  · cases hpr : st.task.priority <;> simp [hpr]

theorem timerAdjust_id_of_io (t : Int) (st : TaskState) (hio : st.is_io_active = true) :
    timerAdjust t st = st := by
  unfold timerAdjust
  rw [hio]
  simp

theorem ioTick_io_remaining (st : TaskState) :
    (ioTick st).io_remaining =
      if st.is_io_active = true ∧ 0 < st.io_remaining then st.io_remaining - 1
      else st.io_remaining := by
  unfold ioTick
  split <;> rfl

theorem lookupState_timer (tbl : Table) (t : Int) (tk : Task) (id : Int)
    (st : TaskState) (h : lookupState tbl id = some st) :
    lookupState (applyEvent tbl { type := EventType.kTimer, time := t, task := tk }) id =
      some (ioTick (timerAdjust t st)) := by
  show lookupState (ioTickAll (update_task_states t tbl)) id = _
  unfold ioTickAll update_task_states
  rw [lookupState_map_snd, lookupState_map_snd, h]
  rfl

/-- C2: on a Timer event with timestamp t, a record not doing IO gets
slack_time = deadline − t − remaining_time and urgency_level equal to the
spec's base tiering raised by the high-priority boost; an IO-active record
keeps its previous slack_time and urgency_level unchanged. -/
theorem timer_urgency_recompute (tbl : Table) (t : Int) (tk : Task) (id : Int)
    (st : TaskState) (h : lookupState tbl id = some st) :
    ∃ st', lookupState (applyEvent tbl { type := EventType.kTimer, time := t, task := tk })
        id = some st' ∧
      (st.is_io_active = false →
        st'.slack_time = st.task.deadline - t - st.remaining_time ∧
        st'.urgency_level =
          specTier st.task.priority (st.task.deadline - t - st.remaining_time)) ∧
      (st.is_io_active = true →
        st'.slack_time = st.slack_time ∧ st'.urgency_level = st.urgency_level) := by
  refine ⟨ioTick (timerAdjust t st), lookupState_timer tbl t tk id st h, ?_, ?_⟩
  · intro hio
    obtain ⟨hs, hu⟩ := timerAdjust_spec t st hio
    obtain ⟨hts, htu, _⟩ := ioTick_keeps_urgency (timerAdjust t st)
    exact ⟨by rw [hts, hs], by rw [htu, hu]⟩
  · intro hio
    rw [timerAdjust_id_of_io t st hio]
    obtain ⟨hts, htu, _⟩ := ioTick_keeps_urgency st
    exact ⟨hts, htu⟩

/-- C2 witness: the Timer at time 3 recomputes the ready record of task 1
as the spec's tiering prescribes. -/
theorem timer_urgency_recompute_witness :
    ∃ st', lookupState (applyEvent [(1, exState1)]
        { type := EventType.kTimer, time := 3, task := exTask7 }) 1 = some st' ∧
      (exState1.is_io_active = false →
        st'.slack_time = exState1.task.deadline - 3 - exState1.remaining_time ∧
        st'.urgency_level =
          specTier exState1.task.priority
            (exState1.task.deadline - 3 - exState1.remaining_time)) ∧
      (exState1.is_io_active = true →
        st'.slack_time = exState1.slack_time ∧
        st'.urgency_level = exState1.urgency_level) :=
  timer_urgency_recompute [(1, exState1)] 3 exTask7 1 exState1 (by decide)

/-! ### Non-negativity of io_remaining -/

theorem io_nonneg_step (tbl : Table) (e : Event)
    (h : ∀ p ∈ tbl, 0 ≤ p.2.io_remaining) :
    ∀ p ∈ applyEvent tbl e, 0 ≤ p.2.io_remaining := by
  intro p hp
  cases he : e.type
  case kTaskArrival =>
      simp only [applyEvent, he] at hp
      rcases mem_insertState _ _ _ p hp with rfl | hmem
      · simp
      · exact h p hmem
  case kTaskFinish =>
      simp only [applyEvent, he] at hp
      exact h p ((eraseState_sublist tbl _).subset hp)
  case kIoRequest =>
      simp only [applyEvent, he] at hp
      split at hp
      · obtain ⟨q, hq, h1, h2⟩ := mem_modifyState _ _ _ p hp
        rcases h2 with h2 | h2
        · rw [h2]; exact h q hq
        · rw [h2]; simp
      · exact h p hp
  case kIoEnd =>
      simp only [applyEvent, he] at hp
      split at hp
      · obtain ⟨q, hq, h1, h2⟩ := mem_modifyState _ _ _ p hp
        rcases h2 with h2 | h2
        · rw [h2]; exact h q hq
        · simp [h2]
      · exact h p hp
  case kTimer =>
      simp only [applyEvent, he, ioTickAll, update_task_states, List.map_map,
        List.mem_map] at hp
      obtain ⟨r, hr, rfl⟩ := hp
      have h0 := h r hr
      simp only [Function.comp]
      rw [ioTick_io_remaining, (timerAdjust_io_fields e.time r.2).1,
        (timerAdjust_io_fields e.time r.2).2]
      split <;> omega

theorem io_nonneg_events (tbl : Table) (h : ∀ p ∈ tbl, 0 ≤ p.2.io_remaining)
    (events : List Event) : ∀ p ∈ applyEvents tbl events, 0 ≤ p.2.io_remaining := by
  induction events generalizing tbl with
  | nil => simpa [applyEvents] using h
  | cons e rest ih =>
      show ∀ p ∈ applyEvents (applyEvent tbl e) rest, 0 ≤ p.2.io_remaining
      exact ih (applyEvent tbl e) (io_nonneg_step tbl e h)

/-- C5: io_remaining stays non-negative over every event sequence; an
IoRequest for a known id sets it to the constant 10; a Timer decrements it
by exactly 1 only while is_io_active is true and io_remaining is positive;
an IoEnd for a known id resets it to 0. -/
theorem io_remaining_rules :
    (∀ tbl : Table, (∀ p ∈ tbl, 0 ≤ p.2.io_remaining) → ∀ events : List Event,
      ∀ p ∈ applyEvents tbl events, 0 ≤ p.2.io_remaining) ∧
    (∀ (tbl : Table) (t : Int) (tk : Task) (st : TaskState),
      lookupState tbl tk.taskId = some st →
      lookupState (applyEvent tbl { type := EventType.kIoRequest, time := t, task := tk })
          tk.taskId = some { st with is_io_active := true, io_remaining := 10 }) ∧
    (∀ (tbl : Table) (t : Int) (tk : Task) (id : Int) (st : TaskState),
      lookupState tbl id = some st →
      ∃ st', lookupState (applyEvent tbl { type := EventType.kTimer, time := t, task := tk })
          id = some st' ∧
        st'.io_remaining =
          (if st.is_io_active = true ∧ 0 < st.io_remaining then st.io_remaining - 1
           else st.io_remaining)) ∧
    (∀ (tbl : Table) (t : Int) (tk : Task) (st : TaskState),
      lookupState tbl tk.taskId = some st →
      lookupState (applyEvent tbl { type := EventType.kIoEnd, time := t, task := tk })
          tk.taskId = some { st with is_io_active := false, io_remaining := 0 }) := by
  refine ⟨io_nonneg_events, ?_, ?_, ?_⟩
  · intro tbl t tk st h
    simp only [applyEvent, h, Option.isSome_some, if_true]
    rw [lookupState_modify_self, h]
    rfl
  · intro tbl t tk id st h
    refine ⟨ioTick (timerAdjust t st), lookupState_timer tbl t tk id st h, ?_⟩
    rw [ioTick_io_remaining, (timerAdjust_io_fields t st).1,
      (timerAdjust_io_fields t st).2]
  · intro tbl t tk st h
    simp only [applyEvent, h, Option.isSome_some, if_true]
    rw [lookupState_modify_self, h]
    rfl

/-- C5 witness: the IoRequest for the known task 1 flags it IO-active with
io_remaining 10. -/
theorem io_remaining_rules_witness :
    lookupState (applyEvent [(1, exState1)]
        { type := EventType.kIoRequest, time := 2, task := exTask1 }) exTask1.taskId =
      some { exState1 with is_io_active := true, io_remaining := 10 } :=
  io_remaining_rules.2.1 [(1, exState1)] 2 exTask1 exState1 (by decide)

/-! ### Arrival initialization and the frame on remaining_time -/

theorem absent_stays_absent (tbl : Table) (e : Event) (id : Int)
    (hne : ¬(e.type = EventType.kTaskArrival ∧ e.task.taskId = id))
    (h : lookupState tbl id = none) :
    lookupState (applyEvent tbl e) id = none := by
  cases he : e.type
  case kTaskArrival =>
      have hid : e.task.taskId ≠ id := fun hh => hne ⟨he, hh⟩
      simp only [applyEvent, he]
      rw [lookupState_insert_ne tbl e.task.taskId id _ (Ne.symm hid)]
      exact h
  case kTaskFinish =>
      simp only [applyEvent, he]
      by_cases hid : id = e.task.taskId
      · rw [hid]
        exact lookupState_erase_self tbl e.task.taskId
      · rw [lookupState_erase_ne tbl id e.task.taskId hid]
        exact h
  case kIoRequest =>
      simp only [applyEvent, he]
      split
      · by_cases hid : id = e.task.taskId
        · subst hid
          rw [lookupState_modify_self, h]
          rfl
        · rw [lookupState_modify_ne tbl e.task.taskId id _ hid]
          exact h
      · exact h
  case kIoEnd =>
      simp only [applyEvent, he]
      split
      · by_cases hid : id = e.task.taskId
        · subst hid
          rw [lookupState_modify_self, h]
          rfl
        · rw [lookupState_modify_ne tbl e.task.taskId id _ hid]
          exact h
      · exact h
  case kTimer =>
      simp only [applyEvent, he, ioTickAll, update_task_states]
      rw [lookupState_map_snd, lookupState_map_snd, h]
      rfl

theorem absent_stays_absent_events (events : List Event) :
    ∀ (tbl : Table) (id : Int),
      (∀ e ∈ events, ¬(e.type = EventType.kTaskArrival ∧ e.task.taskId = id)) →
      lookupState tbl id = none →
      lookupState (applyEvents tbl events) id = none := by
  induction events with
  | nil => intro tbl id _ h; exact h
  | cons e rest ih =>
      intro tbl id hne h
      show lookupState (applyEvents (applyEvent tbl e) rest) id = none
      exact ih (applyEvent tbl e) id (fun x hx => hne x (List.mem_cons_of_mem e hx))
        (absent_stays_absent tbl e id (hne e (List.mem_cons_self e rest)) h)

theorem remaining_frozen_step (tbl : Table) (e : Event) (id : Int) (st : TaskState)
    (hne : ¬(e.type = EventType.kTaskArrival ∧ e.task.taskId = id))
    (h : lookupState tbl id = some st) :
    lookupState (applyEvent tbl e) id = none ∨
      ∃ st', lookupState (applyEvent tbl e) id = some st' ∧
        st'.remaining_time = st.remaining_time := by
  cases he : e.type
  case kTaskArrival =>
      have hid : e.task.taskId ≠ id := fun hh => hne ⟨he, hh⟩
      right
      refine ⟨st, ?_, rfl⟩
      simp only [applyEvent, he]
      rw [lookupState_insert_ne tbl e.task.taskId id _ (Ne.symm hid)]
      exact h
  case kTaskFinish =>
      simp only [applyEvent, he]
      by_cases hid : id = e.task.taskId
      · left
        rw [hid]
        exact lookupState_erase_self tbl e.task.taskId
      · right
        exact ⟨st, by rw [lookupState_erase_ne tbl id e.task.taskId hid]; exact h, rfl⟩
  case kIoRequest =>
      simp only [applyEvent, he]
      right
      split
      · by_cases hid : id = e.task.taskId
        · subst hid
          exact ⟨{ st with is_io_active := true, io_remaining := 10 },
            by rw [lookupState_modify_self, h]; rfl, rfl⟩
        · exact ⟨st, by rw [lookupState_modify_ne tbl e.task.taskId id _ hid]; exact h, rfl⟩
      · exact ⟨st, h, rfl⟩
  case kIoEnd =>
      simp only [applyEvent, he]
      right
      split
      · by_cases hid : id = e.task.taskId
        · subst hid
          exact ⟨{ st with is_io_active := false, io_remaining := 0 },
            by rw [lookupState_modify_self, h]; rfl, rfl⟩
        · exact ⟨st, by rw [lookupState_modify_ne tbl e.task.taskId id _ hid]; exact h, rfl⟩
      · exact ⟨st, h, rfl⟩
  case kTimer =>
      right
      refine ⟨ioTick (timerAdjust e.time st), ?_, ?_⟩
      · simp only [applyEvent, he, ioTickAll, update_task_states]
        rw [lookupState_map_snd, lookupState_map_snd, h]
        rfl
      · rw [ioTick_remaining, timerAdjust_remaining]

theorem remaining_frozen_events (events : List Event) :
    ∀ (tbl : Table) (id : Int) (st : TaskState),
      (∀ e ∈ events, ¬(e.type = EventType.kTaskArrival ∧ e.task.taskId = id)) →
      lookupState tbl id = some st →
      lookupState (applyEvents tbl events) id = none ∨
        ∃ st', lookupState (applyEvents tbl events) id = some st' ∧
          st'.remaining_time = st.remaining_time := by
  induction events with
  | nil => intro tbl id st _ h; exact Or.inr ⟨st, h, rfl⟩
  | cons e rest ih =>
      intro tbl id st hne h
      show lookupState (applyEvents (applyEvent tbl e) rest) id = none ∨ _
      rcases remaining_frozen_step tbl e id st (hne e (List.mem_cons_self e rest)) h with
        hnone | ⟨st1, hlook, hrem⟩
      · left
        exact absent_stays_absent_events rest (applyEvent tbl e) id
          (fun x hx => hne x (List.mem_cons_of_mem e hx)) hnone
      · rcases ih (applyEvent tbl e) id st1
            (fun x hx => hne x (List.mem_cons_of_mem e hx)) hlook with
          hnone | ⟨st2, hl2, hr2⟩
        · exact Or.inl hnone
        · exact Or.inr ⟨st2, hl2, by rw [hr2, hrem]⟩

/-- C9: an Arrival at time t creates (overwriting any existing record for
that id) a record with remaining_time = slack_time = deadline − t, not
IO-active, io_remaining 0 and urgency 0; and no batch free of Arrivals for
that id ever changes the surviving record's remaining_time. -/
theorem remaining_time_frozen :
    (∀ (tbl : Table) (tk : Task) (t : Int),
      lookupState (applyEvent tbl { type := EventType.kTaskArrival, time := t, task := tk })
          tk.taskId =
        some { task := tk, is_io_active := false, remaining_time := tk.deadline - t,
               slack_time := tk.deadline - t, io_remaining := 0, urgency_level := 0 }) ∧
    (∀ (events : List Event) (tbl : Table) (id : Int) (st : TaskState),
      (∀ e ∈ events, ¬(e.type = EventType.kTaskArrival ∧ e.task.taskId = id)) →
      lookupState tbl id = some st →
      lookupState (applyEvents tbl events) id = none ∨
        ∃ st', lookupState (applyEvents tbl events) id = some st' ∧
          st'.remaining_time = st.remaining_time) := by
  constructor
  · intro tbl tk t
    simp only [applyEvent]
    exact lookupState_insert_self tbl tk.taskId _
  · exact remaining_frozen_events

/-- C9 witness: the arrival of task 1 at time 0 installs the initialized
record, and the Timer-only batch leaves its remaining_time untouched. -/
theorem remaining_time_frozen_witness :
    lookupState (applyEvent [] { type := EventType.kTaskArrival, time := 0, task := exTask1 })
        exTask1.taskId =
      some { task := exTask1, is_io_active := false, remaining_time := exTask1.deadline - 0,
             slack_time := exTask1.deadline - 0, io_remaining := 0, urgency_level := 0 } :=
  remaining_time_frozen.1 [] exTask1 0

/-- C1: after applying the batch, the ready list holds exactly the tasks of
records with is_io_active false, and the returned cpuTask is 0 when that
set is empty and otherwise the id of a ready record that no ready record
strictly precedes under the spec order: high priority before normal, then
higher urgency_level, then smaller slack_time. -/
theorem cpu_selection (events : List Event) (tbl : Table)
    (currentCpu currentIoId : Int) (hwf : WfTable tbl) :
    (∀ t : Task, t ∈ ready_tasks (applyEvents tbl events) ↔
      ∃ p ∈ applyEvents tbl events, p.2.is_io_active = false ∧ t = p.2.task) ∧
    ((ready_tasks (applyEvents tbl events) = [] ∧
        (policy events tbl currentCpu currentIoId).1.cpuTask = 0) ∨
      (∃ p ∈ applyEvents tbl events, p.2.is_io_active = false ∧
        (policy events tbl currentCpu currentIoId).1.cpuTask = p.2.task.taskId ∧
        ∀ q ∈ applyEvents tbl events, q.2.is_io_active = false →
          ¬ specCpuBefore q.2 p.2)) := by
  have hwf' := wf_applyEvents tbl events hwf
  refine ⟨fun t => mem_ready_tasks _ t, ?_⟩
  rw [policy_cpuTask]
  cases hsel : selectBest (compare_priority_urgency (applyEvents tbl events))
      (ready_tasks (applyEvents tbl events)) with
  | none => exact Or.inl ⟨(selectBest_eq_none _ _).mp hsel, rfl⟩
  | some m =>
      right
      obtain ⟨p, hp, hio, rfl⟩ := (mem_ready_tasks _ m).mp (selectBest_mem _ _ m hsel)
      refine ⟨p, hp, hio, rfl, ?_⟩
      intro q hq hqio hspec
      have hq_ready : q.2.task ∈ ready_tasks (applyEvents tbl events) :=
        (mem_ready_tasks _ _).mpr ⟨q, hq, hqio, rfl⟩
      have hfalse := selectBest_not_beaten _ (cpu_cmp_irrefl _) (cpu_cmp_trans _)
        (cpu_cmp_negtrans _) _ _ hsel q.2.task hq_ready
      have htrue : compare_priority_urgency (applyEvents tbl events) q.2.task p.2.task = true :=
        (cpu_cmp_iff_spec _ hwf' q p hq hp).mpr hspec
      rw [htrue] at hfalse
      exact absurd hfalse (by simp)

/-- C1 witness: arriving task 1 on the empty table, the ready set is the
one arrived record and the CPU decision picks it. -/
theorem cpu_selection_witness :
    (∀ t : Task, t ∈ ready_tasks (applyEvents [] [exArrival1]) ↔
      ∃ p ∈ applyEvents [] [exArrival1], p.2.is_io_active = false ∧ t = p.2.task) ∧
    ((ready_tasks (applyEvents [] [exArrival1]) = [] ∧
        (policy [exArrival1] [] 0 0).1.cpuTask = 0) ∨
      (∃ p ∈ applyEvents [] [exArrival1], p.2.is_io_active = false ∧
        (policy [exArrival1] [] 0 0).1.cpuTask = p.2.task.taskId ∧
        ∀ q ∈ applyEvents [] [exArrival1], q.2.is_io_active = false →
          ¬ specCpuBefore q.2 p.2)) :=
  cpu_selection [exArrival1] [] 0 0 (by decide)

/-- C4: with caller-supplied current IO id 0, the IO candidate list holds
exactly the IO-active records whose id differs from the caller-supplied
current CPU id, and the returned ioTask is 0 when that set is empty and
otherwise the id of a candidate that no candidate strictly precedes under
the spec order: high priority before normal, then smaller io_remaining. -/
theorem io_selection (events : List Event) (tbl : Table) (currentCpu : Int)
    (hwf : WfTable tbl) :
    (∀ t : Task, t ∈ io_candidates (applyEvents tbl events) currentCpu ↔
      ∃ p ∈ applyEvents tbl events, p.2.is_io_active = true ∧ p.1 ≠ currentCpu ∧
        t = p.2.task) ∧
    ((io_candidates (applyEvents tbl events) currentCpu = [] ∧
        (policy events tbl currentCpu 0).1.ioTask = 0) ∨
      (∃ p ∈ applyEvents tbl events, p.2.is_io_active = true ∧ p.1 ≠ currentCpu ∧
        (policy events tbl currentCpu 0).1.ioTask = p.2.task.taskId ∧
        ∀ q ∈ applyEvents tbl events, q.2.is_io_active = true → q.1 ≠ currentCpu →
          ¬ specIoBefore q.2 p.2)) := by
  have hwf' := wf_applyEvents tbl events hwf
  refine ⟨fun t => mem_io_candidates _ currentCpu t, ?_⟩
  rw [policy_ioTask, if_pos rfl]
  cases hsel : selectBest (compareIoShortest (applyEvents tbl events))
      (io_candidates (applyEvents tbl events) currentCpu) with
  | none => exact Or.inl ⟨(selectBest_eq_none _ _).mp hsel, rfl⟩
  | some m =>
      right
      obtain ⟨p, hp, hio, hcc, rfl⟩ :=
        (mem_io_candidates _ currentCpu m).mp (selectBest_mem _ _ m hsel)
      refine ⟨p, hp, hio, hcc, rfl, ?_⟩
      intro q hq hqio hqcc hspec
      have hq_cand : q.2.task ∈ io_candidates (applyEvents tbl events) currentCpu :=
        (mem_io_candidates _ currentCpu _).mpr ⟨q, hq, hqio, hqcc, rfl⟩
      have hfalse := selectBest_not_beaten _ (io_cmp_irrefl _) (io_cmp_trans _)
        (io_cmp_negtrans _) _ _ hsel q.2.task hq_cand
      have htrue : compareIoShortest (applyEvents tbl events) q.2.task p.2.task = true :=
        (io_cmp_iff_spec _ hwf' q p hq hp).mpr hspec
      rw [htrue] at hfalse
      exact absurd hfalse (by simp)

/-- C4 witness: on the two-record table, the IO-free branch selects the
IO-active task 2 and the candidate list is characterized as stated. -/
theorem io_selection_witness :
    (∀ t : Task, t ∈ io_candidates (applyEvents exTbl2 []) 0 ↔
      ∃ p ∈ applyEvents exTbl2 [], p.2.is_io_active = true ∧ p.1 ≠ 0 ∧
        t = p.2.task) ∧
    ((io_candidates (applyEvents exTbl2 []) 0 = [] ∧
        (policy [] exTbl2 0 0).1.ioTask = 0) ∨
      (∃ p ∈ applyEvents exTbl2 [], p.2.is_io_active = true ∧ p.1 ≠ 0 ∧
        (policy [] exTbl2 0 0).1.ioTask = p.2.task.taskId ∧
        ∀ q ∈ applyEvents exTbl2 [], q.2.is_io_active = true → q.1 ≠ 0 →
          ¬ specIoBefore q.2 p.2)) :=
  io_selection [] exTbl2 0 (by decide)

end SchedPolicy
